import Mathlib

/-!
Shallow embedding of the WAVECAR reader (vaspwfc.py) and the standalone
G-vector generator (paw.py) of the VaspBandUnfolding repository.

Conventions of the embedding:
  * machine integers are modelled as Nat / Int (the source runs under
    Python 2, where the division operator on integers is floor division,
    identical to the explicit floor division written in paw.py);
  * numpy double precision floats are modelled by exact arithmetic: the
    rationals for lattice data and, for plane-wave coefficient values, by
    complex numbers over the ring Q adjoin sqrt 2 (the only irrational
    scaling the modelled code paths apply is by sqrt 2);
  * fallible operations (assert statements, numpy exceptions) are
    modelled with Except;
  * the physical constants HSQDTM, TPI, RYTOEV, AUTOA live in the file
    vasp_constant.py, which is not part of the sources given; following
    the specification they are kept as parameters (a fixed positive
    scale); no claim below depends on their values.
-/

/-- Error taxonomy of the specification.  Each constructor is the label the
specification gives to the corresponding runtime failure of the source:
IndexOutOfRange and InvalidGridSize and PlaneWaveCountMismatch are assert
failures, ValueError and IndexError are numpy exceptions, MalformedHeader is
the LinAlgError numpy raises when inverting a singular lattice matrix, and
UnsupportedFormat is the ValueError raised by setWFPrec on a bad tag. -/
inductive WErr where
  | IndexOutOfRange
  | InvalidGridSize
  | ValueError
  | IndexError
  | PlaneWaveCountMismatch
  | MalformedHeader
  | UnsupportedFormat
deriving DecidableEq, Repr

/-- Elements of the real quadratic ring Q adjoin sqrt 2, written a + b sqrt 2.
Used for wave-function amplitudes because the gamma branch of wfc_r rescales
by sqrt 2. -/
structure K2 where
  a : ℚ
  b : ℚ
deriving DecidableEq, Repr

def K2.add (x y : K2) : K2 := ⟨x.a + y.a, x.b + y.b⟩

def K2.neg (x : K2) : K2 := ⟨-x.a, -x.b⟩

def K2.mul (x y : K2) : K2 := ⟨x.a * y.a + 2 * x.b * y.b, x.a * y.b + x.b * y.a⟩

def K2.zero : K2 := ⟨0, 0⟩

def K2.one : K2 := ⟨1, 0⟩

/-- The value sqrt 2 in the ring K2. -/
def K2.sqrt2 : K2 := ⟨0, 1⟩

/-- The value 1 / sqrt 2 = (sqrt 2) / 2 in the ring K2. -/
def K2.invSqrt2 : K2 := ⟨0, 1/2⟩

/-- Complex amplitudes with real and imaginary parts in K2; models the
numpy complex128 values carried by the reconstruction routine. -/
structure CC where
  re : K2
  im : K2
deriving DecidableEq, Repr

def CC.zero : CC := ⟨K2.zero, K2.zero⟩

def CC.one : CC := ⟨K2.one, K2.zero⟩

/-- Complex conjugation, as used by numpy conjugate. -/
def CC.conj (z : CC) : CC := ⟨z.re, z.im.neg⟩

/-- Multiplication by a real scalar from K2 (models dividing or multiplying a
complex array by sqrt 2). -/
def CC.smul (s : K2) (z : CC) : CC := ⟨s.mul z.re, s.mul z.im⟩

abbrev Q3 := ℚ × ℚ × ℚ

/-- A 3 x 3 rational matrix stored as its three rows, the layout of the
reciprocal lattice array Bcell in the source. -/
abbrev Mat3 := Q3 × Q3 × Q3

/-- An integer frequency triple: one G-vector. -/
abbrev GVec := ℤ × ℤ × ℤ

def vadd3 (x y : Q3) : Q3 := (x.1 + y.1, x.2.1 + y.2.1, x.2.2 + y.2.2)

def smul3 (c : ℚ) (x : Q3) : Q3 := (c * x.1, c * x.2.1, c * x.2.2)

/-- Scaling of a matrix, as in the source expression TPI * Bcell. -/
def smulMat (c : ℚ) (B : Mat3) : Mat3 := (smul3 c B.1, smul3 c B.2.1, smul3 c B.2.2)

/-- Row vector times matrix, as computed by np.dot(v, M): the linear
combination of the rows of M with the components of v. -/
def vecMat (v : Q3) (B : Mat3) : Q3 :=
  vadd3 (smul3 v.1 B.1) (vadd3 (smul3 v.2.1 B.2.1) (smul3 v.2.2 B.2.2))

/-- Squared Euclidean norm of a rational triple. -/
def normSq3 (x : Q3) : ℚ := x.1 * x.1 + x.2.1 * x.2.1 + x.2.2 * x.2.2

def gvecToQ3 (g : GVec) : Q3 := ((g.1 : ℚ), (g.2.1 : ℚ), (g.2.2 : ℚ))

/-- Componentwise negation of a G-vector. -/
def neg3 (g : GVec) : GVec := (-g.1, -g.2.1, -g.2.2)

/-- The VASP centered frequency map of the source (vaspwfc.py lines 204-209,
paw.py lines 28-33): grid index i maps to i when i < n / 2 + 1 and to i - n
otherwise.  Division is floor division: paw.py writes it explicitly and
vaspwfc.py runs under Python 2 where / on integers is floor division. -/
def freq (n i : ℕ) : ℤ := if i < n / 2 + 1 then (i : ℤ) else (i : ℤ) - (n : ℤ)

/-- The frequency values produced along one axis of size n, in grid-index
order. -/
def freqVals (n : ℕ) : List ℤ := (List.range n).map (freq n)

/-- The candidate frequency triples of the full (non-reduced) enumeration,
in the source order: outer loop over z, middle over y, inner over x. -/
def kgridFull (ng : ℕ × ℕ × ℕ) : List GVec :=
  (List.range ng.2.2).flatMap fun kk =>
    (List.range ng.2.1).flatMap fun jj =>
      (List.range ng.1).map fun ii =>
        (freq ng.1 ii, freq ng.2.1 jj, freq ng.2.2 kk)

/-- The gamma-half-x guard of paw.py lines 56-59: keep the triple when
fx > 0, or fx = 0 and fy > 0, or fx = 0 and fy = 0 and fz >= 0. -/
def gammaCondX (g : GVec) : Prop :=
  0 < g.1 ∨ (g.1 = 0 ∧ 0 < g.2.1) ∨ (g.1 = 0 ∧ g.2.1 = 0 ∧ 0 ≤ g.2.2)

instance : DecidablePred gammaCondX := fun g => by
  unfold gammaCondX; infer_instance

/-- The gamma-half-z guard of paw.py lines 46-49 and vaspwfc.py lines
220-223: keep the triple when fz > 0, or fz = 0 and fy > 0, or fz = 0 and
fy = 0 and fx >= 0. -/
def gammaCondZ (g : GVec) : Prop :=
  0 < g.2.2 ∨ (g.2.2 = 0 ∧ 0 < g.2.1) ∨ (g.2.2 = 0 ∧ g.2.1 = 0 ∧ 0 ≤ g.1)

instance : DecidablePred gammaCondZ := fun g => by
  unfold gammaCondZ; infer_instance

/-- Reduction mode of the generator: full grid, gamma half grid along x, or
gamma half grid along z. -/
inductive GMode where
  | full
  | halfX
  | halfZ
deriving DecidableEq, Repr

/-- The candidate list before the cutoff filter: the guarded comprehensions
of paw.py lines 42-65 (the three comprehensions run the same index loops, so
the guarded ones are the full enumeration filtered by their guard). -/
def kgridMode (ng : ℕ × ℕ × ℕ) : GMode → List GVec
  | GMode.full => kgridFull ng
  | GMode.halfX => (kgridFull ng).filter fun g => decide (gammaCondX g)
  | GMode.halfZ => (kgridFull ng).filter fun g => decide (gammaCondZ g)

/-- Kinetic energy of one candidate (paw.py lines 69-71): the constant
HSQDTM times the squared norm of (G + k) times (TPI times Bcell).  HSQDTM
and TPI are parameters; see the file header. -/
def kenergy (HSQDTM TPI : ℚ) (B : Mat3) (kvec : Q3) (g : GVec) : ℚ :=
  HSQDTM * normSq3 (vecMat (vadd3 (gvecToQ3 g) kvec) (smulMat TPI B))

/-- The G-vector generator of paw.py (gvectors): enumerate candidates for
the requested mode and keep those with kinetic energy below the cutoff. -/
def gvectors (HSQDTM TPI : ℚ) (B : Mat3) (encut : ℚ) (kvec : Q3)
    (ng : ℕ × ℕ × ℕ) (mode : GMode) : List GVec :=
  (kgridMode ng mode).filter fun g => decide (kenergy HSQDTM TPI B kvec g < encut)

/-- The construction named by the testable property in the specification:
a gamma-half list together with the componentwise negation of each of its
elements other than the origin. -/
def unionWithNeg (l : List GVec) : List GVec :=
  l ++ (l.filter fun g => decide (g ≠ ((0, 0, 0) : GVec))).map neg3

/-- Indexable 3-D complex grid, the model of a numpy complex array (the
array is total as a function; bounds are enforced by the indexed update
operation fancySet below, as numpy enforces them). -/
abbrev GridZ := GVec → CC

def zeroGrid : GridZ := fun _ => CC.zero

/-- Pointwise update of one grid entry. -/
def update3 (f : GridZ) (p : GVec) (v : CC) : GridZ :=
  fun q => if q = p then v else f q

/-- The numpy index validity rule for an axis of extent d: an index is valid
when -d <= i < d, negative values addressing from the end. -/
def inBounds3 (d p : GVec) : Bool :=
  decide (-d.1 ≤ p.1 ∧ p.1 < d.1 ∧ -d.2.1 ≤ p.2.1 ∧ p.2.1 < d.2.1 ∧
          -d.2.2 ≤ p.2.2 ∧ p.2.2 < d.2.2)

/-- Resolution of a possibly negative numpy index against an axis extent. -/
def wrapNegIdx (d i : ℤ) : ℤ := if i < 0 then i + d else i

def wrapNeg3 (d p : GVec) : GVec :=
  (wrapNegIdx d.1 p.1, wrapNegIdx d.2.1 p.2.1, wrapNegIdx d.2.2 p.2.2)

/-- Model of the numpy fancy-indexing assignment
phi[pts[:,0], pts[:,1], pts[:,2]] = vals over a grid of extents d:
every index must be in bounds (else IndexError); the value array must have
the same length as the index arrays, or length one, in which case the single
value is broadcast to every indexed position (else the broadcast fails with
ValueError).  Assignments happen in order, later ones overwriting earlier
ones, as numpy does for repeated indices. -/
def fancySet (d : GVec) (phi : GridZ) (pts : List GVec) (vals : List CC) :
    Except WErr GridZ :=
  if ¬ (pts.all fun p => inBounds3 d p) then .error .IndexError
  else if vals.length = pts.length then
    .ok ((pts.zip vals).foldl (fun f pv => update3 f (wrapNeg3 d pv.1) pv.2) phi)
  else
    match vals with
    | [v] => .ok (pts.foldl (fun f p => update3 f (wrapNeg3 d p) v) phi)
    | _ => .error .ValueError

/-- Parsed WAVECAR state: the immutable fields the vaspwfc object holds
after readWFHeader and readWFBand.  Lattice data is rational; HSQDTM and
TPI are the constants from the missing vasp_constant.py, kept as fields
(see the file header). -/
structure Wavecar where
  recl : ℕ
  nspin : ℕ
  nkpts : ℕ
  nbands : ℕ
  prec : ℕ
  encut : ℚ
  Bcell : Mat3
  HSQDTM : ℚ
  TPI : ℚ
  ngrid : ℕ × ℕ × ℕ
  nplws : ℕ → ℕ
  kvecs : ℕ → Q3

/-- The checkIndex helper of the source: all three 1-based indices must lie
within the declared counts. -/
def checkIndexB (m : Wavecar) (ispin ikpt iband : ℕ) : Bool :=
  decide (1 ≤ ispin ∧ ispin ≤ m.nspin ∧ 1 ≤ ikpt ∧ ikpt ≤ m.nkpts ∧
          1 ≤ iband ∧ iband ≤ m.nbands)

/-- The whereRec record-offset computation of vaspwfc.py lines 406-416, with
its checkIndex assertion. -/
def whereRec (m : Wavecar) (ispin ikpt iband : ℕ) : Except WErr ℕ :=
  if checkIndexB m ispin ikpt iband then
    .ok (2 + (ispin - 1) * m.nkpts * (m.nbands + 1) +
           (ikpt - 1) * (m.nbands + 1) + iband)
  else .error .IndexOutOfRange

/-- Model of np.fromfile at a byte position: read count coefficient values,
each prec bytes wide, from the stream (the stream is modelled as a function
from the byte offset of a stored value to that value). -/
def fromfileCount (file : ℕ → CC) (bytePos prec count : ℕ) : List CC :=
  (List.range count).map fun i => file (bytePos + i * prec)

/-- The readBandCoeff routine of vaspwfc.py lines 388-404 without the
optional norm division: checkIndex, compute the record with whereRec, seek
to rec times recl bytes, read nplws[ikpt-1] coefficients.  It returns the
byte position it sought to together with the data read.  The optional
normalization (division of the vector by its Euclidean norm) is an
irrational scaling applied after this read and is not needed by any claim
about this routine. -/
def readBandCoeff (m : Wavecar) (file : ℕ → CC) (ispin ikpt iband : ℕ) :
    Except WErr (ℕ × List CC) :=
  match whereRec m ispin ikpt iband with
  | .error e => .error e
  | .ok irec => .ok (irec * m.recl, fromfileCount file (irec * m.recl) m.prec (m.nplws (ikpt - 1)))

/-- The gvectors method of vaspwfc.py: same generator as paw.py, with the
kvec of the requested k-point, the minimal grid of the header, and the
gamma-half-z rule when the object was opened with lgamma (the guard at
vaspwfc.py lines 220-223 is the z-first rule). -/
def vaspwfcGvectors (m : Wavecar) (lgam : Bool) (ikpt : ℕ) : List GVec :=
  gvectors m.HSQDTM m.TPI m.Bcell m.encut (m.kvecs (ikpt - 1)) m.ngrid
    (if lgam then GMode.halfZ else GMode.full)

/-- The gvectors call with its assertions (vaspwfc.py lines 199 and
241-248): the k-point index must be valid, and the generated count must
match the stored plane-wave count (half of it, floor-divided, for a
spin-orbit WAVECAR). -/
def gvecsChecked (m : Wavecar) (lsoc lgam : Bool) (ikpt : ℕ) : Except WErr (List GVec) :=
  if ¬ (1 ≤ ikpt ∧ ikpt ≤ m.nkpts) then .error .IndexOutOfRange
  else
    let gv := vaspwfcGvectors m lgam ikpt
    if lsoc then
      if gv.length = m.nplws (ikpt - 1) / 2 then .ok gv else .error .PlaneWaveCountMismatch
    else
      if gv.length = m.nplws (ikpt - 1) then .ok gv else .error .PlaneWaveCountMismatch

/-- The wrap of one G-vector onto grid indices performed in place by the
statement gvec %= ngrid (vaspwfc.py line 345): each component is replaced
by its nonnegative remainder modulo the grid dimension (the Python and
numpy % operator agrees with Int.emod for positive modulus). -/
def wrapG (ng : ℕ × ℕ × ℕ) (g : GVec) : GVec :=
  (g.1 % (ng.1 : ℤ), g.2.1 % (ng.2.1 : ℤ), g.2.2 % (ng.2.2 : ℤ))

/-- Extents of the allocated phi_k array (vaspwfc.py lines 340-343): the
full target grid, except that in gamma mode the third axis is allocated at
half length plus one. -/
def gridDims (lgam : Bool) (ng : ℕ × ℕ × ℕ) : GVec :=
  if lgam then ((ng.1 : ℤ), (ng.2.1 : ℤ), ((ng.2.2 / 2 + 1 : ℕ) : ℤ))
  else ((ng.1 : ℤ), (ng.2.1 : ℤ), (ng.2.2 : ℤ))

/-- The gamma completion loop of vaspwfc.py lines 374-380, transcribed
exactly: for every (ii, jj) of the kz = 0 plane compute fx from ii and fy
ALSO from ii (the source line 377 reads ii where the enclosing loop
variable for the second axis is jj), skip the position when fy > 0 or
fy = 0 and fx >= 0, and otherwise assign the conjugate of the entry at the
negated (numpy wrap-around) position of the same plane, reading the array
state current at that iteration. -/
def gammaFill (n1 n2 : ℕ) (phi : GridZ) : GridZ :=
  (List.range n1).foldl
    (fun f ii =>
      (List.range n2).foldl
        (fun g jj =>
          let fx := freq n1 ii
          let fy := freq n2 ii
          if 0 < fy ∨ (fy = 0 ∧ 0 ≤ fx) then g
          else
            update3 g ((ii : ℤ), (jj : ℤ), 0)
              (CC.conj (g (wrapNegIdx (n1 : ℤ) (-(ii : ℤ)),
                           wrapNegIdx (n2 : ℤ) (-(jj : ℤ)), 0))))
        f)
    phi

/-- The gamma rescale of vaspwfc.py lines 381-382: the whole array is
divided by sqrt 2, then the origin entry is multiplied back by sqrt 2 (so
the origin entry is net unchanged). -/
def gammaScale (phi : GridZ) : GridZ :=
  update3 (fun p => CC.smul K2.invSqrt2 (phi p)) ((0 : ℤ), (0 : ℤ), (0 : ℤ))
    (CC.smul K2.sqrt2 (CC.smul K2.invSqrt2 (phi ((0 : ℤ), (0 : ℤ), (0 : ℤ)))))

/-- The coefficient-source dispatch of the spin-orbit branch, vaspwfc.py
lines 349-352: the source writes if Cg, the numpy truthiness test of the
passed array.  None and an empty array are falsy (read from the file); a
one-element array is truthy exactly when its element is nonzero; the truth
value of a longer array is ambiguous and numpy raises ValueError.  Contrast
with the non-spin-orbit branch, line 367, which tests Cg is not None. -/
def socDump (CgIn : Option (List CC)) (dumpFile : List CC) : Except WErr (List CC) :=
  match CgIn with
  | none => .ok dumpFile
  | some [] => .ok dumpFile
  | some [c] => if c = CC.zero then .ok dumpFile else .ok [c]
  | some _ => .error .ValueError

/-- Resolution of the target grid (vaspwfc.py lines 318-325): the header
minimal grid when absent, else the requested grid, which must be at least
the minimal grid on every axis. -/
def ngridResolve (m : Wavecar) : Option (ℕ × ℕ × ℕ) → Except WErr (ℕ × ℕ × ℕ)
  | none => .ok m.ngrid
  | some g =>
      if m.ngrid.1 ≤ g.1 ∧ m.ngrid.2.1 ≤ g.2.1 ∧ m.ngrid.2.2 ≤ g.2.2 then .ok g
      else .error .InvalidGridSize

/-- Result of the reconstruction up to the final inverse Fourier transform:
the reciprocal-space array (or the two spinor arrays) wfc_r has built when
it reaches its transform call.  The remaining source work is the fixed
linear map ifftn (irfftn sized to the full grid in the gamma case) followed
by multiplication with the scalar normFac, a pointwise complex-linear
postprocessing of this data carried out in floating point. -/
inductive WfcOut where
  | soc : GridZ → GridZ → WfcOut
  | gam : GridZ → WfcOut
  | std : GridZ → WfcOut

/-- The branch body of wfc_r after the in-place wrap (vaspwfc.py lines
347-386), acting on the already wrapped G-vector list gw: dispatch the
coefficient source, place the coefficients on the allocated grid, and in
the gamma branch run the completion loop and the sqrt 2 rescale.  The
spin-orbit branch splits the coefficient vector at floor(length / 2) into
the two spinor channels and places each on its own zeroed grid. -/
def wfcRCore (lsoc lgam : Bool) (dumpFile : List CC)
    (CgIn : Option (List CC)) (ngrid : ℕ × ℕ × ℕ) (gw : List GVec) :
    Except WErr WfcOut :=
  let d := gridDims lgam ngrid
  if lsoc then
    match socDump CgIn dumpFile with
    | .error e => .error e
    | .ok dump =>
      let nplw := dump.length / 2
      match fancySet d zeroGrid gw (dump.take nplw) with
      | .error e => .error e
      | .ok specUp =>
        match fancySet d zeroGrid gw (dump.drop nplw) with
        | .error e => .error e
        | .ok specDn => .ok (.soc specUp specDn)
  else
    let dump := CgIn.getD dumpFile
    match fancySet d zeroGrid gw dump with
    | .error e => .error e
    | .ok phik =>
      if lgam then .ok (.gam (gammaScale (gammaFill ngrid.1 ngrid.2.1 phik)))
      else .ok (.std phik)

/-- The wfc_r routine of vaspwfc.py lines 291-386, modelled up to its final
inverse transform (see WfcOut).  dumpFile stands for the value the call
readBandCoeff(ispin, ikpt, iband, norm) returns, so the stream read is the
same function modelled by readBandCoeff above.  The second component of the
result is the content of the caller-supplied gvec array after the call:
the statement gvec %= ngrid mutates the caller array in place, so once
control passes that line the caller array holds the wrapped values, whether
or not a later step fails. -/
def wfcR (m : Wavecar) (lsoc lgam : Bool) (dumpFile : List CC)
    (ispin ikpt iband : ℕ) (gvecIn : Option (List GVec)) (CgIn : Option (List CC))
    (ngridIn : Option (ℕ × ℕ × ℕ)) : Except WErr WfcOut × Option (List GVec) :=
  if ¬ checkIndexB m ispin ikpt iband then (.error .IndexOutOfRange, gvecIn)
  else
    match ngridResolve m ngridIn with
    | .error e => (.error e, gvecIn)
    | .ok ngrid =>
      match (match gvecIn with
             | some l => Except.ok l
             | none => gvecsChecked m lsoc lgam ikpt) with
      | .error e => (.error e, gvecIn)
      | .ok gl =>
        (wfcRCore lsoc lgam dumpFile CgIn ngrid (gl.map (wrapG ngrid)),
         gvecIn.map fun l => l.map (wrapG ngrid))

/-- True exactly when the Except value is ok. -/
def exIsOk {α : Type} : Except WErr α → Bool
  | .ok _ => true
  | .error _ => false

/-- True when the result is a gamma-mode reciprocal array that is zero at
every stored position of the (n1, n2, n3half) box. -/
def gamAllZero (r : Except WErr WfcOut) (n1 n2 n3half : ℕ) : Bool :=
  match r with
  | .ok (.gam s) =>
      decide (∀ i < n1, ∀ j < n2, ∀ k < n3half,
        s ((i : ℤ), (j : ℤ), (k : ℤ)) = CC.zero)
  | _ => false

/-- Square rational matrices indexed the Mathlib way, used for the header
derivation (np.linalg works on the lattice array). -/
abbrev M3 := Matrix (Fin 3) (Fin 3) ℚ

/-- The setWFPrec tag dispatch of vaspwfc.py lines 146-162: tag 45200 is
single precision complex (8 bytes per value), 45210 double precision
complex (16 bytes); tags 53300 and 53310 and anything else raise, labelled
UnsupportedFormat by the specification. -/
def setWFPrec (rtag : ℤ) : Except WErr ℕ :=
  if rtag = 45200 then .ok 8
  else if rtag = 45210 then .ok 16
  else .error .UnsupportedFormat

/-- Model of np.linalg.inv on the lattice matrix: in exact arithmetic the
inverse exists exactly when the determinant is nonzero, and numpy raises
LinAlgError (the MalformedHeader of the specification) on a singular
matrix. -/
def npInv (A : M3) : Except WErr M3 :=
  if A.det = 0 then .error .MalformedHeader else .ok (A.det⁻¹ • A.adjugate)

/-- The numeric fields of the first two records, already decoded from their
float encoding (byte-level float decoding is not needed by any claim). -/
structure HeaderRaw where
  recl : ℤ
  nspin : ℤ
  rtag : ℤ
  nkpts : ℤ
  nbands : ℤ
  encut : ℚ
  Acell : M3

/-- The parsed header state readWFHeader leaves on the object. -/
structure Header where
  recl : ℤ
  nspin : ℤ
  rtag : ℤ
  prec : ℕ
  nkpts : ℤ
  nbands : ℤ
  encut : ℚ
  Acell : M3
  Omega : ℚ
  Bcell : M3

/-- The readWFHeader derivation of vaspwfc.py lines 112-144 on decoded
record values: dispatch the precision tag, then derive the volume as the
determinant of the lattice matrix and the reciprocal lattice as the
transpose of its inverse (np.linalg.inv(A).T); inverting a singular
lattice fails.  The minimal-grid derivation (a ceiling of a real square
root) follows these fields and is modelled separately as the ngrid field
of Wavecar. -/
def readWFHeader (h : HeaderRaw) : Except WErr Header :=
  match setWFPrec h.rtag with
  | .error e => .error e
  | .ok p =>
    match npInv h.Acell with
    | .error e => .error e
    | .ok Ainv =>
      .ok ⟨h.recl, h.nspin, h.rtag, p, h.nkpts, h.nbands, h.encut, h.Acell,
           h.Acell.det, Ainv.transpose⟩

/-- The identity matrix as rational rows, a convenient concrete reciprocal
lattice for witnesses. -/
def matId : Mat3 := ((1, 0, 0), (0, 1, 0), (0, 0, 1))

/-- A concrete spin-orbit WAVECAR: one spin, one k-point at gamma, one
band, two stored plane-wave coefficients (one per spinor channel), minimal
grid 1 x 1 x 1, generous cutoff. -/
def wSoc : Wavecar :=
  ⟨16, 1, 1, 1, 8, 100, matId, 1, 1, (1, 1, 1), fun _ => 2, fun _ => (0, 0, 0)⟩

/-- A concrete coefficient vector for the spin-orbit WAVECAR: two nonzero
values. -/
def dumpSoc : List CC := [CC.one, ⟨K2.zero, K2.one⟩]

/-- A concrete gamma-half-z WAVECAR: one spin, one k-point at gamma, one
band, grid 3 x 3 x 3, generous cutoff; the stored count 14 matches the
gamma-half-z G-vector count of that grid. -/
def wGam : Wavecar :=
  ⟨16, 1, 1, 1, 8, 100, matId, 1, 1, (3, 3, 3), fun _ => 14, fun _ => (0, 0, 0)⟩

/-- A unit-normalized coefficient vector for wGam: value one on the fifth
G-vector of the gamma-half-z enumeration, which is (-1, 1, 0), and zero
elsewhere. -/
def dumpGam : List CC :=
  [CC.zero, CC.zero, CC.zero, CC.zero, CC.one, CC.zero, CC.zero,
   CC.zero, CC.zero, CC.zero, CC.zero, CC.zero, CC.zero, CC.zero]

/-- A concrete stored kz = 0 plane for the completion loop: amplitude one
at position (0, 1, 0), whose frequency pair (0, 1) satisfies the mirror
condition, zero elsewhere. -/
def phiPlane : GridZ := update3 zeroGrid ((0 : ℤ), (1 : ℤ), (0 : ℤ)) CC.one

/-- Squared modulus of one amplitude, a value in K2. -/
def ccNormSq (z : CC) : K2 := (z.re.mul z.re).add (z.im.mul z.im)

/-- Sum of squared moduli of a coefficient vector. -/
def sumNormSq (l : List CC) : K2 := l.foldl (fun s z => s.add (ccNormSq z)) K2.zero

/-- A concrete decoded header with the identity lattice and a recognized
single-precision tag. -/
def hdrId : HeaderRaw := ⟨16, 1, 45200, 1, 1, 100, 1⟩

theorem mem_kgridFull {ng : ℕ × ℕ × ℕ} {g : GVec} :
    g ∈ kgridFull ng ↔
      ∃ ii < ng.1, ∃ jj < ng.2.1, ∃ kk < ng.2.2,
        g = (freq ng.1 ii, freq ng.2.1 jj, freq ng.2.2 kk) := by
  simp only [kgridFull, List.mem_flatMap, List.mem_map, List.mem_range]
  constructor
  · rintro ⟨kk, hkk, jj, hjj, ii, hii, rfl⟩
    exact ⟨ii, hii, jj, hjj, kk, hkk, rfl⟩
  · rintro ⟨ii, hii, jj, hjj, kk, hkk, rfl⟩
    exact ⟨kk, hkk, jj, hjj, ii, hii, rfl⟩

/-- C1.  For every grid size, the gamma-half-x candidate enumeration retains
a frequency triple exactly when fx > 0, or fx = 0 and fy > 0, or fx = 0 and
fy = 0 and fz >= 0; the gamma-half-z enumeration retains it exactly when the
same rule holds with z tested first. -/
theorem gamma_half_retention (ng : ℕ × ℕ × ℕ) (g : GVec) :
    (g ∈ kgridMode ng GMode.halfX ↔
      g ∈ kgridFull ng ∧
        (0 < g.1 ∨ (g.1 = 0 ∧ 0 < g.2.1) ∨ (g.1 = 0 ∧ g.2.1 = 0 ∧ 0 ≤ g.2.2))) ∧
    (g ∈ kgridMode ng GMode.halfZ ↔
      g ∈ kgridFull ng ∧
        (0 < g.2.2 ∨ (g.2.2 = 0 ∧ 0 < g.2.1) ∨ (g.2.2 = 0 ∧ g.2.1 = 0 ∧ 0 ≤ g.1))) := by
  constructor
  · simp [kgridMode, List.mem_filter, gammaCondX]
  · simp [kgridMode, List.mem_filter, gammaCondZ]

theorem freq_inj (n i j : ℕ) (hi : i < n) (hj : j < n) (h : freq n i = freq n j) :
    i = j := by
  revert h; unfold freq; split_ifs <;> omega

theorem freqVals_nodup (n : ℕ) : (freqVals n).Nodup := by
  refine List.Nodup.map_on ?_ (List.nodup_range n)
  intro x hx y hy h
  exact freq_inj n x y (List.mem_range.mp hx) (List.mem_range.mp hy) h

theorem mem_freqVals (n t : ℕ) (hn : n = 2 * t + 1) (x : ℤ) :
    x ∈ freqVals n ↔ -(t : ℤ) ≤ x ∧ x ≤ (t : ℤ) := by
  subst hn
  simp only [freqVals, List.mem_map, List.mem_range]
  constructor
  · rintro ⟨i, hi, rfl⟩
    unfold freq; split_ifs <;> omega
  · intro h
    refine ⟨if 0 ≤ x then x.toNat else (x + (2 * t + 1 : ℕ)).toNat, ?_, ?_⟩
    · split_ifs <;> omega
    · unfold freq; split_ifs <;> omega

theorem mem_kgridFull_comp {ng : ℕ × ℕ × ℕ} {g : GVec} :
    g ∈ kgridFull ng ↔
      g.1 ∈ freqVals ng.1 ∧ g.2.1 ∈ freqVals ng.2.1 ∧ g.2.2 ∈ freqVals ng.2.2 := by
  obtain ⟨a, b, c⟩ := g
  rw [mem_kgridFull]
  simp only [freqVals, List.mem_map, List.mem_range, Prod.mk.injEq]
  constructor
  · rintro ⟨ii, h1, jj, h2, kk, h3, e1, e2, e3⟩
    exact ⟨⟨ii, h1, e1.symm⟩, ⟨jj, h2, e2.symm⟩, ⟨kk, h3, e3.symm⟩⟩
  · rintro ⟨⟨ii, h1, e1⟩, ⟨jj, h2, e2⟩, ⟨kk, h3, e3⟩⟩
    exact ⟨ii, h1, jj, h2, kk, h3, e1.symm, e2.symm, e3.symm⟩

theorem kgridFull_nodup (ng : ℕ × ℕ × ℕ) : (kgridFull ng).Nodup := by
  unfold kgridFull
  rw [List.nodup_flatMap]
  refine ⟨?_, ?_⟩
  · intro kk _
    rw [List.nodup_flatMap]
    refine ⟨?_, ?_⟩
    · intro jj _
      refine List.Nodup.map_on ?_ (List.nodup_range ng.1)
      intro x hx y hy h
      exact freq_inj ng.1 x y (List.mem_range.mp hx) (List.mem_range.mp hy)
        (congrArg (fun p => p.1) h)
    · refine List.Pairwise.imp_of_mem ?_ (List.pairwise_lt_range ng.2.1)
      intro a b ha hb hab x hx1 hx2
      obtain ⟨i1, hi1, rfl⟩ := List.mem_map.mp hx1
      obtain ⟨i2, hi2, heq⟩ := List.mem_map.mp hx2
      have h2 := congrArg (fun p => p.2.1) heq
      exact absurd (freq_inj ng.2.1 b a (List.mem_range.mp hb) (List.mem_range.mp ha) h2)
        (by omega)
  · refine List.Pairwise.imp_of_mem ?_ (List.pairwise_lt_range ng.2.2)
    intro a b ha hb hab x hx1 hx2
    simp only [List.mem_flatMap, List.mem_map] at hx1 hx2
    obtain ⟨j1, hj1, i1, hi1, rfl⟩ := hx1
    obtain ⟨j2, hj2, i2, hi2, heq⟩ := hx2
    have h3 := congrArg (fun p => p.2.2) heq
    exact absurd (freq_inj ng.2.2 b a (List.mem_range.mp hb) (List.mem_range.mp ha) h3)
      (by omega)

theorem neg3_neg3 (g : GVec) : neg3 (neg3 g) = g := by
  obtain ⟨a, b, c⟩ := g; simp [neg3]

theorem neg3_inj : Function.Injective neg3 := by
  intro x y h
  have := congrArg neg3 h
  rwa [neg3_neg3, neg3_neg3] at this

theorem neg3_zero : neg3 ((0, 0, 0) : GVec) = ((0, 0, 0) : GVec) := by
  simp [neg3]

theorem kgridFull_neg {ng : ℕ × ℕ × ℕ} (t1 t2 t3 : ℕ)
    (h1 : ng.1 = 2 * t1 + 1) (h2 : ng.2.1 = 2 * t2 + 1) (h3 : ng.2.2 = 2 * t3 + 1)
    {g : GVec} (hg : g ∈ kgridFull ng) : neg3 g ∈ kgridFull ng := by
  rw [mem_kgridFull_comp] at hg ⊢
  obtain ⟨m1, m2, m3⟩ := hg
  rw [mem_freqVals ng.1 t1 h1] at m1 ⊢
  rw [mem_freqVals ng.2.1 t2 h2] at m2 ⊢
  rw [mem_freqVals ng.2.2 t3 h3] at m3 ⊢
  simp only [neg3]
  omega

theorem kenergy_neg3 (H T : ℚ) (B : Mat3) (g : GVec) :
    kenergy H T B (0, 0, 0) (neg3 g) = kenergy H T B (0, 0, 0) g := by
  obtain ⟨a, b, c⟩ := g
  obtain ⟨⟨b11, b12, b13⟩, ⟨b21, b22, b23⟩, ⟨b31, b32, b33⟩⟩ := B
  simp only [kenergy, vecMat, vadd3, smul3, smulMat, normSq3, gvecToQ3, neg3,
    Int.cast_neg]
  ring

theorem gammaCondX_zero : gammaCondX ((0, 0, 0) : GVec) := by
  simp [gammaCondX]

theorem gammaCondX_total (g : GVec) : gammaCondX g ∨ gammaCondX (neg3 g) := by
  obtain ⟨a, b, c⟩ := g
  simp only [gammaCondX, neg3]
  omega

theorem gammaCondX_uniq (g : GVec) (hg : gammaCondX g) (hng : gammaCondX (neg3 g)) :
    g = ((0, 0, 0) : GVec) := by
  obtain ⟨a, b, c⟩ := g
  simp only [gammaCondX, neg3] at hg hng
  simp only [Prod.mk.injEq]
  omega

theorem gammaCondZ_zero : gammaCondZ ((0, 0, 0) : GVec) := by
  simp [gammaCondZ]

theorem gammaCondZ_total (g : GVec) : gammaCondZ g ∨ gammaCondZ (neg3 g) := by
  obtain ⟨a, b, c⟩ := g
  simp only [gammaCondZ, neg3]
  omega

theorem gammaCondZ_uniq (g : GVec) (hg : gammaCondZ g) (hng : gammaCondZ (neg3 g)) :
    g = ((0, 0, 0) : GVec) := by
  obtain ⟨a, b, c⟩ := g
  simp only [gammaCondZ, neg3] at hg hng
  simp only [Prod.mk.injEq]
  omega

theorem union_neg_spec (cond : GVec → Prop) [DecidablePred cond]
    (hc0 : cond ((0, 0, 0) : GVec))
    (hct : ∀ g, cond g ∨ cond (neg3 g))
    (hcu : ∀ g, cond g → cond (neg3 g) → g = ((0, 0, 0) : GVec))
    (H T : ℚ) (B : Mat3) (encut : ℚ) (ng : ℕ × ℕ × ℕ) (t1 t2 t3 : ℕ)
    (h1 : ng.1 = 2 * t1 + 1) (h2 : ng.2.1 = 2 * t2 + 1) (h3 : ng.2.2 = 2 * t3 + 1) :
    (∀ x : GVec,
        x ∈ unionWithNeg (((kgridFull ng).filter fun g => decide (cond g)).filter
            fun g => decide (kenergy H T B (0, 0, 0) g < encut)) ↔
        x ∈ ((kgridFull ng).filter fun g => decide (kenergy H T B (0, 0, 0) g < encut))) ∧
    (unionWithNeg (((kgridFull ng).filter fun g => decide (cond g)).filter
        fun g => decide (kenergy H T B (0, 0, 0) g < encut))).Nodup := by
  refine ⟨?_, ?_⟩
  · intro x
    simp only [unionWithNeg, List.mem_append, List.mem_map, List.mem_filter,
      decide_eq_true_eq, ne_eq]
    constructor
    · rintro (⟨⟨hk, _⟩, hEx⟩ | ⟨b, ⟨⟨⟨hbk, _⟩, hbE⟩, _⟩, rfl⟩)
      · exact ⟨hk, hEx⟩
      · exact ⟨kgridFull_neg t1 t2 t3 h1 h2 h3 hbk, by rwa [kenergy_neg3]⟩
    · rintro ⟨hk, hEx⟩
      by_cases hc : cond x
      · exact Or.inl ⟨⟨hk, hc⟩, hEx⟩
      · have hcx : cond (neg3 x) := (hct x).resolve_left hc
        have hxne : x ≠ ((0, 0, 0) : GVec) := by rintro rfl; exact hc hc0
        refine Or.inr ⟨neg3 x,
          ⟨⟨⟨kgridFull_neg t1 t2 t3 h1 h2 h3 hk, hcx⟩, by rwa [kenergy_neg3]⟩, ?_⟩,
          neg3_neg3 x⟩
        intro h0
        exact hxne (by rw [← neg3_neg3 x, h0, neg3_zero])
  · have hGnd : (((kgridFull ng).filter fun g => decide (cond g)).filter
        fun g => decide (kenergy H T B (0, 0, 0) g < encut)).Nodup :=
      ((kgridFull_nodup ng).filter _).filter _
    refine List.Nodup.append hGnd ((hGnd.filter _).map neg3_inj) ?_
    intro a ha hb
    simp only [List.mem_map, List.mem_filter, decide_eq_true_eq, ne_eq] at ha hb
    obtain ⟨⟨_, hac⟩, _⟩ := ha
    obtain ⟨b, ⟨⟨⟨_, hbc⟩, _⟩, hbne⟩, rfl⟩ := hb
    exact hbne (hcu b hbc hac)

/-- C5 (amended: all three grid dimensions odd, as every grid the container
reader derives is, each dimension being 2 CUTOF + 1).  For every odd grid,
cutoff, reciprocal lattice and scale constants, at the gamma k-vector
(0, 0, 0): the list formed by a gamma-half G-vector set (either half-x or
half-z) together with the componentwise negation of its non-origin elements
has the same members as the full-mode G-vector set for the same cutoff, and
holds no duplicate, so the origin is counted exactly once. -/
theorem c5_gamma_union_odd (H T : ℚ) (B : Mat3) (encut : ℚ) (ng : ℕ × ℕ × ℕ)
    (h1 : Odd ng.1) (h2 : Odd ng.2.1) (h3 : Odd ng.2.2) :
    ((∀ x : GVec,
        x ∈ unionWithNeg (gvectors H T B encut (0, 0, 0) ng GMode.halfX) ↔
        x ∈ gvectors H T B encut (0, 0, 0) ng GMode.full) ∧
      (unionWithNeg (gvectors H T B encut (0, 0, 0) ng GMode.halfX)).Nodup) ∧
    ((∀ x : GVec,
        x ∈ unionWithNeg (gvectors H T B encut (0, 0, 0) ng GMode.halfZ) ↔
        x ∈ gvectors H T B encut (0, 0, 0) ng GMode.full) ∧
      (unionWithNeg (gvectors H T B encut (0, 0, 0) ng GMode.halfZ)).Nodup) := by
  obtain ⟨t1, ht1⟩ := h1
  obtain ⟨t2, ht2⟩ := h2
  obtain ⟨t3, ht3⟩ := h3
  have ht1 : ng.1 = 2 * t1 + 1 := by omega
  have ht2 : ng.2.1 = 2 * t2 + 1 := by omega
  have ht3 : ng.2.2 = 2 * t3 + 1 := by omega
  simp only [gvectors, kgridMode]
  exact ⟨union_neg_spec gammaCondX gammaCondX_zero gammaCondX_total gammaCondX_uniq
      H T B encut ng t1 t2 t3 ht1 ht2 ht3,
    union_neg_spec gammaCondZ gammaCondZ_zero gammaCondZ_total gammaCondZ_uniq
      H T B encut ng t1 t2 t3 ht1 ht2 ht3⟩

/-- C5 counterexample: for the even grid size (2, 1, 1) with the identity
reciprocal lattice, unit scale constants and cutoff 100, the gamma-half-x
set is [(0,0,0), (1,0,0)]; adding the negation of its non-origin element
gives a list containing (-1,0,0), which the full-mode set (whose x
frequencies on an axis of size 2 are only 0 and 1) does not contain.  The
set equality of the claim therefore fails for this grid size. -/
theorem c5_counterexample :
    ¬ (∀ x : GVec,
        x ∈ unionWithNeg (gvectors 1 1 matId 100 (0, 0, 0) (2, 1, 1) GMode.halfX) ↔
        x ∈ gvectors 1 1 matId 100 (0, 0, 0) (2, 1, 1) GMode.full) := by
  intro h
  have hmem : ((-1 : ℤ), (0 : ℤ), (0 : ℤ)) ∈
      unionWithNeg (gvectors 1 1 matId 100 (0, 0, 0) (2, 1, 1) GMode.halfX) := by
    with_unfolding_all decide
  exact absurd ((h ((-1 : ℤ), (0 : ℤ), (0 : ℤ))).mp hmem)
    (by with_unfolding_all decide)

/-- C5 witness: the amended statement applied at the odd grid (3, 3, 3)
with the identity reciprocal lattice, unit constants and cutoff 100. -/
theorem c5_gamma_union_odd_witness :
    (Odd 3 ∧ Odd 3 ∧ Odd 3) ∧
    ((∀ x : GVec,
        x ∈ unionWithNeg (gvectors 1 1 matId 100 (0, 0, 0) (3, 3, 3) GMode.halfX) ↔
        x ∈ gvectors 1 1 matId 100 (0, 0, 0) (3, 3, 3) GMode.full) ∧
      (unionWithNeg (gvectors 1 1 matId 100 (0, 0, 0) (3, 3, 3) GMode.halfX)).Nodup) ∧
    ((∀ x : GVec,
        x ∈ unionWithNeg (gvectors 1 1 matId 100 (0, 0, 0) (3, 3, 3) GMode.halfZ) ↔
        x ∈ gvectors 1 1 matId 100 (0, 0, 0) (3, 3, 3) GMode.full) ∧
      (unionWithNeg (gvectors 1 1 matId 100 (0, 0, 0) (3, 3, 3) GMode.halfZ)).Nodup) :=
  ⟨⟨⟨1, by norm_num⟩, ⟨1, by norm_num⟩, ⟨1, by norm_num⟩⟩,
    c5_gamma_union_odd 1 1 matId 100 (3, 3, 3) ⟨1, by norm_num⟩ ⟨1, by norm_num⟩
      ⟨1, by norm_num⟩⟩

/-- C6.  The frequency map sends grid index i to i when i < n / 2 + 1 (one
exact integer floor division, the Python 2 semantics of every call site)
and to i - n otherwise; consequently, for every odd axis size n the
produced frequency values are without repetition and are exactly the
integers from -(n-1)/2 to (n-1)/2. -/
theorem c6_freq_centered (n : ℕ) (hn : Odd n) :
    (∀ i : ℕ, freq n i = if i < n / 2 + 1 then (i : ℤ) else (i : ℤ) - (n : ℤ)) ∧
    (freqVals n).Nodup ∧
    ∀ x : ℤ, x ∈ freqVals n ↔
      -(((n : ℤ) - 1) / 2) ≤ x ∧ x ≤ ((n : ℤ) - 1) / 2 := by
  obtain ⟨t, ht⟩ := hn
  have ht' : n = 2 * t + 1 := by omega
  refine ⟨fun i => rfl, freqVals_nodup n, fun x => ?_⟩
  rw [mem_freqVals n t ht']
  constructor <;> intro h <;> constructor <;> omega

/-- C6 witness: the statement applied at the odd axis size 5. -/
theorem c6_freq_centered_witness : Odd 5 ∧ (freqVals 5).Nodup :=
  ⟨⟨2, by norm_num⟩, (c6_freq_centered 5 ⟨2, by norm_num⟩).2.1⟩

/-- C3.  For every 1-based spin, k-point and band index within the declared
bounds, reading the band coefficients seeks to byte position rec times
recordLength where rec = 2 + (s-1) K (B+1) + (k-1)(B+1) + b, and reads
exactly the stored plane-wave count of coefficients of that k-point. -/
theorem c3_record_offset (m : Wavecar) (file : ℕ → CC) (ispin ikpt iband : ℕ)
    (hs : 1 ≤ ispin ∧ ispin ≤ m.nspin) (hk : 1 ≤ ikpt ∧ ikpt ≤ m.nkpts)
    (hb : 1 ≤ iband ∧ iband ≤ m.nbands) :
    readBandCoeff m file ispin ikpt iband =
      .ok ((2 + (ispin - 1) * m.nkpts * (m.nbands + 1) +
              (ikpt - 1) * (m.nbands + 1) + iband) * m.recl,
        fromfileCount file
          ((2 + (ispin - 1) * m.nkpts * (m.nbands + 1) +
              (ikpt - 1) * (m.nbands + 1) + iband) * m.recl)
          m.prec (m.nplws (ikpt - 1))) ∧
    ∀ bytePos : ℕ,
      (fromfileCount file bytePos m.prec (m.nplws (ikpt - 1))).length =
        m.nplws (ikpt - 1) := by
  have hchk : checkIndexB m ispin ikpt iband = true := by
    simp only [checkIndexB, decide_eq_true_eq]
    exact ⟨hs.1, hs.2, hk.1, hk.2, hb.1, hb.2⟩
  refine ⟨?_, ?_⟩
  · simp [readBandCoeff, whereRec, hchk]
  · intro bytePos
    simp [fromfileCount]

/-- C3 witness: the statement applied to the concrete container wSoc at
spin 1, k-point 1, band 1. -/
theorem c3_record_offset_witness :
    ((1 : ℕ) ≤ 1 ∧ (1 : ℕ) ≤ wSoc.nspin) ∧
    exIsOk (readBandCoeff wSoc (fun _ => CC.zero) 1 1 1) = true := by
  refine ⟨by decide, ?_⟩
  rw [(c3_record_offset wSoc (fun _ => CC.zero) 1 1 1 (by decide) (by decide)
    (by decide)).1]
  rfl

/-- C9.  With a recognized precision tag: when the lattice matrix has zero
determinant, header parsing fails with MalformedHeader (the singular-matrix
failure of the inversion); for every non-degenerate lattice it succeeds,
the stored volume is the determinant, and the stored reciprocal lattice is
the inverse transpose of the lattice matrix (its transpose is a two-sided
inverse of the lattice matrix). -/
theorem c9_header_det (h : HeaderRaw) (hp : h.rtag = 45200 ∨ h.rtag = 45210) :
    (h.Acell.det = 0 → readWFHeader h = .error .MalformedHeader) ∧
    (h.Acell.det ≠ 0 →
      ∃ hd : Header, readWFHeader h = .ok hd ∧ hd.Omega = h.Acell.det ∧
        hd.Bcell.transpose * h.Acell = 1 ∧ h.Acell * hd.Bcell.transpose = 1) := by
  obtain ⟨p, hsp⟩ : ∃ p, setWFPrec h.rtag = .ok p := by
    rcases hp with hp | hp
    · exact ⟨8, by simp [setWFPrec, hp]⟩
    · exact ⟨16, by simp [setWFPrec, hp]⟩
  refine ⟨fun hdet => ?_, fun hdet => ?_⟩
  · simp [readWFHeader, hsp, npInv, hdet]
  · refine ⟨⟨h.recl, h.nspin, h.rtag, p, h.nkpts, h.nbands, h.encut, h.Acell,
      h.Acell.det, (h.Acell.det⁻¹ • h.Acell.adjugate).transpose⟩, ?_, rfl, ?_, ?_⟩
    · simp [readWFHeader, hsp, npInv, hdet]
    · rw [Matrix.transpose_transpose, Matrix.smul_mul, Matrix.adjugate_mul,
        smul_smul, inv_mul_cancel₀ hdet, one_smul]
    · rw [Matrix.transpose_transpose, Matrix.mul_smul, Matrix.mul_adjugate,
        smul_smul, inv_mul_cancel₀ hdet, one_smul]

/-- C9 witness: the statement applied to the concrete header hdrId, whose
lattice is the identity matrix and whose tag is 45200. -/
theorem c9_header_det_witness :
    (hdrId.rtag = 45200 ∨ hdrId.rtag = 45210) ∧
    ((hdrId.Acell.det = 0 → readWFHeader hdrId = .error .MalformedHeader) ∧
      (hdrId.Acell.det ≠ 0 →
        ∃ hd : Header, readWFHeader hdrId = .ok hd ∧ hd.Omega = hdrId.Acell.det ∧
          hd.Bcell.transpose * hdrId.Acell = 1 ∧
          hdrId.Acell * hd.Bcell.transpose = 1)) :=
  ⟨Or.inl rfl, c9_header_det hdrId (Or.inl rfl)⟩

/-- C10.  When wfc_r is called with an explicit G-vector override and valid
indices and grid, the caller array is mutated in place before use: after
the call the array holds, for every triple, the componentwise nonnegative
remainder modulo the target grid dimension; and any triple holding a
negative component (a genuine signed frequency) is changed by the wrap, so
the caller array no longer holds the original signed frequencies. -/
theorem c10_gvec_mutation (m : Wavecar) (lsoc lgam : Bool) (dumpFile : List CC)
    (ispin ikpt iband : ℕ) (gvec : List GVec) (CgIn : Option (List CC))
    (ng : ℕ × ℕ × ℕ)
    (hidx : checkIndexB m ispin ikpt iband = true)
    (hgrid : m.ngrid.1 ≤ ng.1 ∧ m.ngrid.2.1 ≤ ng.2.1 ∧ m.ngrid.2.2 ≤ ng.2.2)
    (hpos : 0 < ng.1 ∧ 0 < ng.2.1 ∧ 0 < ng.2.2) :
    (wfcR m lsoc lgam dumpFile ispin ikpt iband (some gvec) CgIn (some ng)).snd =
      some (gvec.map (wrapG ng)) ∧
    ∀ g ∈ gvec, (g.1 < 0 ∨ g.2.1 < 0 ∨ g.2.2 < 0) → wrapG ng g ≠ g := by
  have h1 : ngridResolve m (some ng) = .ok ng := by
    simp [ngridResolve, hgrid.1, hgrid.2.1, hgrid.2.2]
  refine ⟨?_, ?_⟩
  · unfold wfcR
    rw [h1, hidx]
    simp
  · rintro ⟨a, b, c⟩ hg hneg heq
    dsimp only at hneg
    simp only [wrapG, Prod.mk.injEq] at heq
    obtain ⟨e1, e2, e3⟩ := heq
    rcases hneg with hcomp | hcomp | hcomp
    · have ha : 0 ≤ a % ((ng.1 : ℤ)) :=
        Int.emod_nonneg a (by exact_mod_cast hpos.1.ne')
      rw [e1] at ha; omega
    · have ha : 0 ≤ b % ((ng.2.1 : ℤ)) :=
        Int.emod_nonneg b (by exact_mod_cast hpos.2.1.ne')
      rw [e2] at ha; omega
    · have ha : 0 ≤ c % ((ng.2.2 : ℤ)) :=
        Int.emod_nonneg c (by exact_mod_cast hpos.2.2.ne')
      rw [e3] at ha; omega

/-- C10 witness: the statement applied to the container wGam with the
single caller triple (-1, 0, 0) on the grid (3, 3, 3). -/
theorem c10_gvec_mutation_witness :
    checkIndexB wGam 1 1 1 = true ∧
    ((wfcR wGam false false [] 1 1 1 (some [((-1 : ℤ), 0, 0)]) none
        (some (3, 3, 3))).snd = some ([((-1 : ℤ), 0, 0)].map (wrapG (3, 3, 3))) ∧
      ∀ g ∈ [((-1 : ℤ), 0, 0)], (g.1 < 0 ∨ g.2.1 < 0 ∨ g.2.2 < 0) →
        wrapG (3, 3, 3) g ≠ g) :=
  ⟨by decide,
    c10_gvec_mutation wGam false false [] 1 1 1 [((-1 : ℤ), 0, 0)] none (3, 3, 3)
      (by decide) (by decide) (by decide)⟩

theorem inBounds_wrapG (ng : ℕ × ℕ × ℕ)
    (hpos : 0 < ng.1 ∧ 0 < ng.2.1 ∧ 0 < ng.2.2) (g : GVec) :
    inBounds3 (gridDims false ng) (wrapG ng g) = true := by
  obtain ⟨a, b, c⟩ := g
  have p1 : (0 : ℤ) < (ng.1 : ℤ) := by exact_mod_cast hpos.1
  have p2 : (0 : ℤ) < (ng.2.1 : ℤ) := by exact_mod_cast hpos.2.1
  have p3 : (0 : ℤ) < (ng.2.2 : ℤ) := by exact_mod_cast hpos.2.2
  have h1 := Int.emod_nonneg a p1.ne'
  have h2 := Int.emod_lt_of_pos a p1
  have h3 := Int.emod_nonneg b p2.ne'
  have h4 := Int.emod_lt_of_pos b p2
  have h5 := Int.emod_nonneg c p3.ne'
  have h6 := Int.emod_lt_of_pos c p3
  simp only [gridDims, Bool.false_eq_true, if_false, inBounds3, wrapG,
    decide_eq_true_eq]
  omega

theorem inBounds_wrapG_gam (ng : ℕ × ℕ × ℕ)
    (hpos : 0 < ng.1 ∧ 0 < ng.2.1 ∧ 0 < ng.2.2) (g : GVec)
    (hz : (wrapG ng g).2.2 < ((ng.2.2 / 2 + 1 : ℕ) : ℤ)) :
    inBounds3 (gridDims true ng) (wrapG ng g) = true := by
  obtain ⟨a, b, c⟩ := g
  have p1 : (0 : ℤ) < (ng.1 : ℤ) := by exact_mod_cast hpos.1
  have p2 : (0 : ℤ) < (ng.2.1 : ℤ) := by exact_mod_cast hpos.2.1
  have p3 : (0 : ℤ) < (ng.2.2 : ℤ) := by exact_mod_cast hpos.2.2
  have h1 := Int.emod_nonneg a p1.ne'
  have h2 := Int.emod_lt_of_pos a p1
  have h3 := Int.emod_nonneg b p2.ne'
  have h4 := Int.emod_lt_of_pos b p2
  have h5 := Int.emod_nonneg c p3.ne'
  have hz' : c % (ng.2.2 : ℤ) < ((ng.2.2 / 2 + 1 : ℕ) : ℤ) := by
    simpa [wrapG] using hz
  simp only [gridDims, if_true, inBounds3, wrapG, decide_eq_true_eq]
  omega

/-- C8 (amended).  The reconstruction performs no explicit coefficient-count
check; what a length mismatch does depends on the storage mode.  In the
non-spin-orbit modes (full and gamma run the same assignment, vaspwfc.py
line 368): a supplied coefficient vector of length at least 2 that
disagrees with the G-vector count makes the numpy fancy-indexing broadcast
fail with ValueError (the failure the specification labels
CoefficientCountMismatch) and no field is returned, but a vector of length
exactly 1 is silently broadcast to every G-vector position and a field IS
returned.  In spin-orbit mode the override is dispatched by numpy array
truthiness (line 349), so no length comparison is ever reached: every
override of length at least 2, whether or not it matches twice the
G-vector count, raises ValueError; a one-element nonzero override gives
nplw = 0 and an empty spinor slice whose placement onto a nonempty
G-vector set raises ValueError; and a one-element zero override is falsy
and is silently ignored in favor of the coefficients read from the file
(the result equals the call without override). -/
theorem c8_coeff_length (m : Wavecar) (dumpFile : List CC) (ispin ikpt iband : ℕ)
    (gvec : List GVec) (Cg : List CC) (ng : ℕ × ℕ × ℕ)
    (hidx : checkIndexB m ispin ikpt iband = true)
    (hgrid : m.ngrid.1 ≤ ng.1 ∧ m.ngrid.2.1 ≤ ng.2.1 ∧ m.ngrid.2.2 ≤ ng.2.2)
    (hpos : 0 < ng.1 ∧ 0 < ng.2.1 ∧ 0 < ng.2.2)
    (hzb : ∀ g ∈ gvec, (wrapG ng g).2.2 < ((ng.2.2 / 2 + 1 : ℕ) : ℤ)) :
    (2 ≤ Cg.length → Cg.length ≠ gvec.length →
      (wfcR m false false dumpFile ispin ikpt iband (some gvec) (some Cg)
        (some ng)).fst = .error .ValueError) ∧
    (Cg.length = 1 →
      ∃ phik : GridZ,
        (wfcR m false false dumpFile ispin ikpt iband (some gvec) (some Cg)
          (some ng)).fst = .ok (.std phik)) ∧
    (2 ≤ Cg.length → Cg.length ≠ gvec.length →
      (wfcR m false true dumpFile ispin ikpt iband (some gvec) (some Cg)
        (some ng)).fst = .error .ValueError) ∧
    (Cg.length = 1 →
      ∃ phik : GridZ,
        (wfcR m false true dumpFile ispin ikpt iband (some gvec) (some Cg)
          (some ng)).fst = .ok (.gam phik)) ∧
    (2 ≤ Cg.length →
      (wfcR m true false dumpFile ispin ikpt iband (some gvec) (some Cg)
        (some ng)).fst = .error .ValueError) ∧
    (∀ c : CC, c ≠ CC.zero → gvec ≠ [] →
      (wfcR m true false dumpFile ispin ikpt iband (some gvec) (some [c])
        (some ng)).fst = .error .ValueError) ∧
    (wfcR m true false dumpFile ispin ikpt iband (some gvec) (some [CC.zero])
        (some ng)).fst =
      (wfcR m true false dumpFile ispin ikpt iband (some gvec) none
        (some ng)).fst := by
  have h1 : ngridResolve m (some ng) = .ok ng := by
    simp [ngridResolve, hgrid.1, hgrid.2.1, hgrid.2.2]
  have hred : ∀ (ls lg : Bool) (cg : Option (List CC)),
      (wfcR m ls lg dumpFile ispin ikpt iband (some gvec) cg (some ng)).fst =
        wfcRCore ls lg dumpFile cg ng (gvec.map (wrapG ng)) := by
    intro ls lg cg
    unfold wfcR
    rw [h1, hidx]
    simp
  have hboundF : ((gvec.map (wrapG ng)).all
      fun p => inBounds3 (gridDims false ng) p) = true := by
    rw [List.all_eq_true]
    intro p hp
    obtain ⟨g, _, rfl⟩ := List.mem_map.mp hp
    exact inBounds_wrapG ng hpos g
  have hboundG : ((gvec.map (wrapG ng)).all
      fun p => inBounds3 (gridDims true ng) p) = true := by
    rw [List.all_eq_true]
    intro p hp
    obtain ⟨g, hg, rfl⟩ := List.mem_map.mp hp
    exact inBounds_wrapG_gam ng hpos g (hzb g hg)
  have hlen : (gvec.map (wrapG ng)).length = gvec.length := List.length_map _ _
  refine ⟨fun h2 hneq => ?_, fun hone => ?_, fun h2 hneq => ?_, fun hone => ?_,
    fun h2 => ?_, fun c hc hne => ?_, ?_⟩
  · rw [hred]
    unfold wfcRCore fancySet
    simp only [Bool.false_eq_true, if_false, Option.getD_some, hboundF, not_true,
      Bool.not_eq_true]
    rw [if_neg (by rw [hlen]; exact hneq)]
    match Cg, h2 with
    | c1 :: c2 :: rest, _ => rfl
  · obtain ⟨v, rfl⟩ := List.length_eq_one.mp hone
    rw [hred]
    unfold wfcRCore fancySet
    simp only [Bool.false_eq_true, if_false, Option.getD_some, hboundF, not_true,
      Bool.not_eq_true]
    by_cases hM : ([v] : List CC).length = (gvec.map (wrapG ng)).length
    · rw [if_pos hM]
      exact ⟨_, rfl⟩
    · rw [if_neg hM]
      exact ⟨_, rfl⟩
  · rw [hred]
    unfold wfcRCore fancySet
    simp only [Bool.false_eq_true, if_false, Option.getD_some, hboundG, not_true,
      Bool.not_eq_true]
    rw [if_neg (by rw [hlen]; exact hneq)]
    match Cg, h2 with
    | c1 :: c2 :: rest, _ => rfl
  · obtain ⟨v, rfl⟩ := List.length_eq_one.mp hone
    rw [hred]
    unfold wfcRCore fancySet
    simp only [Bool.false_eq_true, if_false, Option.getD_some, hboundG, not_true,
      Bool.not_eq_true]
    by_cases hM : ([v] : List CC).length = (gvec.map (wrapG ng)).length
    · rw [if_pos hM]
      exact ⟨_, rfl⟩
    · rw [if_neg hM]
      exact ⟨_, rfl⟩
  · rw [hred]
    match Cg, h2 with
    | c1 :: c2 :: rest, _ => rfl
  · rw [hred]
    unfold wfcRCore
    have hs : socDump (some [c]) dumpFile = .ok [c] := by
      simp only [socDump, if_neg hc]
    rw [hs]
    have htake : List.take (([c] : List CC).length / 2) ([c] : List CC) = [] := by
      simp
    dsimp only
    rw [htake]
    have hne0 : ¬ (([] : List CC).length = (gvec.map (wrapG ng)).length) := by
      rw [List.length_nil, hlen]
      intro h0
      exact hne (List.length_eq_zero.mp h0.symm)
    have hfs : fancySet (gridDims false ng) zeroGrid (gvec.map (wrapG ng))
        ([] : List CC) = .error .ValueError := by
      unfold fancySet
      rw [if_neg (fun hC => hC hboundF), if_neg hne0]
    rw [hfs]
    simp
  · rw [hred, hred]
    unfold wfcRCore
    simp [socDump]

/-- C8 witness: the amended statement applied to the container wGam with
two override G-vectors, exercising the length-1 broadcast success in full
mode and the spin-orbit truthiness ValueError for a length-2 override. -/
theorem c8_coeff_length_witness :
    checkIndexB wGam 1 1 1 = true ∧
    (∃ phik : GridZ,
      (wfcR wGam false false [] 1 1 1
        (some [((0 : ℤ), 0, 0), ((1 : ℤ), 0, 0)]) (some [CC.one])
        (some (3, 3, 3))).fst = .ok (.std phik)) ∧
    (wfcR wGam true false [] 1 1 1
      (some [((0 : ℤ), 0, 0), ((1 : ℤ), 0, 0)]) (some [CC.one, CC.one])
      (some (3, 3, 3))).fst = .error .ValueError :=
  ⟨by decide,
    (c8_coeff_length wGam [] 1 1 1 [((0 : ℤ), 0, 0), ((1 : ℤ), 0, 0)] [CC.one]
      (3, 3, 3) (by decide) (by decide) (by decide) (by decide)).2.1 (by decide),
    (c8_coeff_length wGam [] 1 1 1 [((0 : ℤ), 0, 0), ((1 : ℤ), 0, 0)]
      [CC.one, CC.one] (3, 3, 3) (by decide) (by decide) (by decide)
      (by decide)).2.2.2.2.1 (by decide)⟩

/-- C8 counterexample: with two G-vectors and a one-element coefficient
vector the lengths disagree, yet the reconstruction returns a field (the
single value is broadcast) instead of failing with a count mismatch as the
claim states. -/
theorem c8_counterexample :
    ([CC.one] : List CC).length ≠
      ([((0 : ℤ), 0, 0), ((1 : ℤ), 0, 0)] : List GVec).length ∧
    exIsOk (wfcR wGam false false [] 1 1 1
      (some [((0 : ℤ), 0, 0), ((1 : ℤ), 0, 0)]) (some [CC.one])
      (some (3, 3, 3))).fst = true := by
  with_unfolding_all decide

/-- C2 (code bug, vaspwfc.py line 377).  On the kz = 0 plane of a 3 x 3 x 3
gamma grid, the position (i, j) = (0, 2) has the signed frequency pair
(0, -1), which violates the mirror condition (fy > 0, or fy = 0 and
fx >= 0), so the claim requires the completion loop to assign there the
conjugate of the entry at the negated position (0, 1).  The loop instead
computes fy from the first loop index and skips the position: starting from
a plane holding one at (0, 1), the entry at (0, 2) is still zero after the
loop even though the conjugate it should have received is nonzero. -/
theorem c2_gamma_fill_skips :
    gammaFill 3 3 phiPlane ((0 : ℤ), (2 : ℤ), (0 : ℤ)) = CC.zero ∧
    ¬ (0 < freq 3 2 ∨ (freq 3 2 = 0 ∧ 0 ≤ freq 3 0)) ∧
    CC.conj (phiPlane ((0 : ℤ), (1 : ℤ), (0 : ℤ))) ≠ CC.zero := by
  with_unfolding_all decide

/-- C4 (code bug, consequence of the line 377 slip).  For the gamma
container wGam, whose stored coefficient vector dumpGam is unit normalized
and holds a single one at the G-vector (-1, 1, 0), the reconstruction
succeeds but its entire reciprocal array is zero: the buggy completion loop
overwrites the stored amplitude with the conjugate of a never-populated
position.  The inverse transform of the zero array is the zero field, whose
squared magnitudes sum to 0, not 1. -/
theorem c4_gamma_norm_zero :
    exIsOk (wfcR wGam false true dumpGam 1 1 1 none none none).fst = true ∧
    gamAllZero (wfcR wGam false true dumpGam 1 1 1 none none none).fst 3 3 2 = true ∧
    dumpGam.length = wGam.nplws 0 ∧
    sumNormSq dumpGam = K2.one := by
  with_unfolding_all decide

/-- C7 (code bug, vaspwfc.py line 349).  In spin-orbit mode the override
dispatch is written as the numpy truthiness test of the coefficient array,
so passing the very vector read from the container (length 2 here, length
at least 2 for any spin-orbit band) raises ValueError instead of using the
override: the override call errors while the call without override
succeeds, refuting observational equivalence; the non-spin-orbit branch
(line 367) tests against None and does not have this failure. -/
theorem c7_soc_override :
    (wfcR wSoc true false dumpSoc 1 1 1 (some [((0 : ℤ), 0, 0)]) (some dumpSoc)
      none).fst = .error .ValueError ∧
    exIsOk (wfcR wSoc true false dumpSoc 1 1 1 none none none).fst = true ∧
    2 ≤ dumpSoc.length := by
  refine ⟨by with_unfolding_all rfl, by with_unfolding_all decide, by decide⟩
